import Mathlib

/-!
Shallow embedding of the three decision engines of the `transient` repository:

* the Identifier Normalizer (`src/refmaster/normalizer_agent.py`),
* the Trade Validation Engine (`src/oms/oms_agent.py`, `src/oms/schema.py`),
* the Mark Classification Engine (`src/pricing/normalizer.py`, `src/pricing/schema.py`).

Python floats are modelled as rationals (ℚ), Python strings as Lean `String`
(operating on their `data` character lists), and `datetime.date` values as
proleptic-Gregorian ordinal day numbers (`Nat`), matching
`datetime.date.toordinal`.  The external market-price source
(`get_price_snapshot`) is a parameter of every function that calls it, modelled
as a deterministic function `ticker → day → Except errorMessage price`; the
retry loop of `fetch_market_price` collapses for a deterministic source, since
every attempt returns the same outcome.

Rational subtraction and division are implemented through `Rat.divInt` on
numerators/denominators (`ratSub`, `ratDiv`) so that all definitions evaluate
inside the kernel; `ratSub_eq_sub` and `ratDiv_eq_div` prove them equal to `-`
and `/` on ℚ.
-/

namespace Transient

/-! ### Character and string helpers (models of the Python `str` operations used) -/

/-- Model of the character class `[A-Z]` used by the extraction regexes. -/
def isUpperAZ (c : Char) : Bool := 'A' ≤ c && c ≤ 'Z'

/-- Model of the character class `[A-Z0-9]`. -/
def isAlnumUp (c : Char) : Bool := isUpperAZ c || c.isDigit

/-- Model of the regex word-character class used by the boundary `\b`:
letters, digits and underscore. -/
def isWordChar (c : Char) : Bool := c.isAlpha || c.isDigit || c = '_'

/-- Model of Python `str.upper` for the ASCII text handled by the engines. -/
def upperStr (s : String) : String := ⟨s.data.map Char.toUpper⟩

/-- Model of Python `str.lower` for the ASCII text handled by the engines. -/
def lowerStr (s : String) : String := ⟨s.data.map Char.toLower⟩

/-- Drop whitespace from both ends of a character list. -/
def trimChars (cs : List Char) : List Char :=
  ((cs.dropWhile Char.isWhitespace).reverse.dropWhile Char.isWhitespace).reverse

/-- Model of Python `str.strip()`. -/
def trimStr (s : String) : String := ⟨trimChars s.data⟩

/-- Whether `nd` is a prefix of the second list (used by substring search). -/
def prefixEq : List Char → List Char → Bool
  | [], _ => true
  | _ :: _, [] => false
  | a :: l, b :: m => (a = b) && prefixEq l m

/-- Model of Python `needle in hay` for strings: substring occurrence. -/
def hasSub (nd : List Char) : List Char → Bool
  | [] => prefixEq nd []
  | c :: rest => prefixEq nd (c :: rest) || hasSub nd rest

/-- Substring occurrence on `String`s. -/
def strHasSub (nd hay : String) : Bool := hasSub nd.data hay.data

/-- Lookup in an association list (models Python `dict` access). -/
def alistGet {α β : Type} [DecidableEq α] : List (α × β) → α → Option β
  | [], _ => none
  | kv :: rest, a => if kv.1 = a then some kv.2 else alistGet rest a

/-- Insert into an association list; the new binding shadows any older one
(models Python `dict` assignment). -/
def alistPut {α β : Type} [DecidableEq α] (l : List (α × β)) (a : α) (b : β) : List (α × β) :=
  (a, b) :: l

/-! ### Calendar dates

A date is its proleptic-Gregorian ordinal (`datetime.date.toordinal`); ordinal
1 is 0001-01-01, a Monday, so `date.weekday()` is `(ordinal - 1) % 7` with
Monday = 0.  `parseIso` models `datetime.date.fromisoformat` on the
`YYYY-MM-DD` format, the only format the repository uses. -/

/-- Gregorian leap-year rule. -/
def isLeapYear (y : Nat) : Bool := (y % 4 = 0 && y % 100 ≠ 0) || y % 400 = 0

/-- Number of days in month `m` of year `y`. -/
def monthLength (y m : Nat) : Nat :=
  if m = 2 then (if isLeapYear y then 29 else 28)
  else if m = 4 || m = 6 || m = 9 || m = 11 then 30
  else 31

/-- Days in year `y` before the first day of month `m`. -/
def daysBeforeMonth (y m : Nat) : Nat :=
  (List.range (m - 1)).foldl (fun acc i => acc + monthLength y (i + 1)) 0

/-- Proleptic-Gregorian ordinal of the date `y-m-d` (model of `date.toordinal`). -/
def toOrdinal (y m d : Nat) : Nat :=
  365 * (y - 1) + (y - 1) / 4 - (y - 1) / 100 + (y - 1) / 400 + daysBeforeMonth y m + d

/-- Numeric value of a digit character. -/
def digitVal (c : Char) : Nat := c.toNat - '0'.toNat

/-- Model of `datetime.date.fromisoformat` on `YYYY-MM-DD` text: `some` ordinal
on a valid calendar date, `none` where the Python call raises. -/
def parseIso (s : String) : Option Nat :=
  match s.data with
  | [y1, y2, y3, y4, h1, m1, m2, h2, d1, d2] =>
    if (h1 = '-' && h2 = '-') && [y1, y2, y3, y4, m1, m2, d1, d2].all Char.isDigit then
      let y := ((digitVal y1 * 10 + digitVal y2) * 10 + digitVal y3) * 10 + digitVal y4
      let mo := digitVal m1 * 10 + digitVal m2
      let dy := digitVal d1 * 10 + digitVal d2
      if ((1 ≤ y && 1 ≤ mo) && mo ≤ 12) && (1 ≤ dy && dy ≤ monthLength y mo) then
        some (toOrdinal y mo dy)
      else none
    else none
  | _ => none

/-- Model of `date.weekday()`: Monday = 0 … Sunday = 6. -/
def weekdayOf (n : Nat) : Nat := (n - 1) % 7

/-- Modelled from the spec: the number of business days (Monday–Friday) in the
interval `(t, s]`, used only to state the spec's "T+N business days" settlement
window, which the code itself does not compute. -/
def businessDaysBetween (t s : Nat) : Nat :=
  ((List.range (s - t)).filter (fun i => weekdayOf (t + 1 + i) < 5)).length

/-! ### Kernel-computable rational operations -/

/-- Rational subtraction computed on numerators and denominators (equals `a - b`,
see `ratSub_eq_sub`); used so concrete runs reduce inside the kernel. -/
def ratSub (a b : ℚ) : ℚ := Rat.divInt (a.num * b.den - b.num * a.den) (a.den * b.den)

/-- Rational division computed on numerators and denominators (equals `a / b`,
see `ratDiv_eq_div`). -/
def ratDiv (a b : ℚ) : ℚ := Rat.divInt (a.num * b.den) (b.num * a.den)

/-! ### Identifier Normalizer (`src/refmaster/normalizer_agent.py`) -/

/-- Canonical equity record (`RefMasterEquity`); the metadata fields that the
normalizer never reads (currency, pricing source, name, sector, industry) are
omitted.  The loader uppercases/trims `symbol` and `exchange`. -/
structure Equity where
  symbol : String
  isin : String
  cusip : String
  cik : String
  exchange : String
  country : Option String
deriving DecidableEq, Repr

/-- Ranked normalization outcome (`NormalizationResult`). -/
structure NormalizationResult where
  equity : Equity
  confidence : ℚ
  reasons : List String
  ambiguous : Bool
deriving DecidableEq, Repr

/-- The five scoring thresholds of `NormalizerAgent.__init__`. -/
structure NormThresholds where
  exactTh : ℚ
  highTh : ℚ
  ambiguousLow : ℚ
  ambiguousHigh : ℚ
  reject : ℚ
deriving DecidableEq, Repr

/-- Default thresholds: exact=1.0, high=0.9, ambiguous_low=0.6,
ambiguous_high=0.85, reject=0.4. -/
def defaultNormThresholds : NormThresholds :=
  ⟨1, mkRat 9 10, mkRat 6 10, mkRat 85 100, mkRat 4 10⟩

/-- The flat record of extracted identifier candidates built by
`_extract_identifiers`. -/
structure Extracted where
  symbol : Option String
  isin : Option String
  cusip : Option String
  cik : Option String
  exchange : Option String
  country : Option String
deriving DecidableEq, Repr

/-- Match a fixed-length sequence of character classes at the head of the text,
returning the matched characters and the remainder. -/
def takePat : List (Char → Bool) → List Char → Option (List Char × List Char)
  | [], cs => some ([], cs)
  | _ :: _, [] => none
  | p :: ps, c :: cs =>
    if p c then (takePat ps cs).map (fun pr => (c :: pr.1, pr.2)) else none

/-- The regex boundary `\b` holds after a match when the text ends or the next
character is not a word character. -/
def boundaryOk : List Char → Bool
  | [] => true
  | c :: _ => !isWordChar c

/-- Leftmost search for a fixed-length class pattern delimited by `\b` on both
sides (models `re.search` for the ISIN and CUSIP patterns).  `prevW` records
whether the character before the current position is a word character. -/
def scanFixed (pat : List (Char → Bool)) : Bool → List Char → Option (List Char)
  | _, [] => none
  | prevW, c :: rest =>
    match (if prevW then none else takePat pat (c :: rest)) with
    | some pr => if boundaryOk pr.2 then some pr.1 else scanFixed pat (isWordChar c) rest
    | none => scanFixed pat (isWordChar c) rest

/-- Character-class pattern of the ISIN regex `[A-Z]{2}[A-Z0-9]{9}[0-9]`. -/
def isinPat : List (Char → Bool) :=
  [isUpperAZ, isUpperAZ] ++ List.replicate 9 isAlnumUp ++ [Char.isDigit]

/-- Character-class pattern of the CUSIP regex `[A-Z0-9]{9}`. -/
def cusipPat : List (Char → Bool) := List.replicate 9 isAlnumUp

/-- Length of the longest prefix whose characters satisfy `p`. -/
def countLeading (p : Char → Bool) : List Char → Nat
  | [] => 0
  | c :: rest => if p c then countLeading p rest + 1 else 0

/-- Leftmost search for the CIK regex `\b(0{0,6}[0-9]{4,10})\b`.  At a
boundary-started maximal digit run of length `L` with `lz` leading zeros, the
backtracking engine finds a match exactly when the run is followed by a
boundary and `4 ≤ L ≤ 10 + min 6 lz` (the zero-quantifier absorbs up to six
leading zeros); the whole run is the match. -/
def cikScan : Bool → List Char → Option (List Char)
  | _, [] => none
  | prevW, c :: rest =>
    if !prevW && c.isDigit then
      let run := countLeading Char.isDigit (c :: rest)
      let lz := countLeading (fun x => x = '0') (c :: rest)
      if boundaryOk ((c :: rest).drop run) && (4 ≤ run && run ≤ 10 + min 6 lz) then
        some ((c :: rest).take run)
      else cikScan (isWordChar c) rest
    else cikScan (isWordChar c) rest

/-- Model of `str.zfill(10)` on a digit string. -/
def zfill10 (cs : List Char) : List Char := List.replicate (10 - cs.length) '0' ++ cs

/-- Match of the symbol regex `[A-Z]{1,5}(?:\.[A-Z])?\b` anchored at the current
position (which the caller has checked to be a boundary).  A letter run longer
than five cannot match (every shorter attempt ends at a letter, breaking `\b`);
otherwise the full run matches, greedily taking a `.X` suffix when the boundary
after it holds, and falling back to the bare run (a following `.` is itself a
boundary). -/
def symAt (cs : List Char) : Option (List Char) :=
  let r := countLeading isUpperAZ cs
  if r = 0 || 5 < r then none
  else
    match cs.drop r with
    | '.' :: d :: rest2 =>
      if isUpperAZ d && boundaryOk rest2 then some (cs.take r ++ ['.', d])
      else some (cs.take r)
    | rest => if boundaryOk rest then some (cs.take r) else none

/-- Leftmost search for the symbol regex. -/
def symbolScan : Bool → List Char → Option (List Char)
  | _, [] => none
  | prevW, c :: rest =>
    match (if prevW then none else symAt (c :: rest)) with
    | some m => some m
    | none => symbolScan (isWordChar c) rest

/-- The fixed exchange keyword list of `_extract_identifiers`. -/
def exchangeKeywords : List String := ["NASDAQ", "NYSE", "AMEX", "OTC"]

/-- Model of `NormalizerAgent._extract_identifiers`. -/
def extractIdentifiers (inputStr : String) : Extracted :=
  let text := (upperStr inputStr).data
  let isinR := (scanFixed isinPat false text).map (fun m => (⟨m⟩ : String))
  let cusipR :=
    match isinR with
    | some _ => none
    | none => (scanFixed cusipPat false text).map (fun m => (⟨m⟩ : String))
  let cikR := (cikScan false text).map (fun m => (⟨zfill10 m⟩ : String))
  let symR := (symbolScan false text).map (fun m =>
    (⟨if m.contains '.' then m.takeWhile (fun c => c ≠ '.') else m⟩ : String))
  let exR := exchangeKeywords.find? (fun kw => hasSub kw.data text)
  let ctryR := if hasSub " US".data text then some "US" else none
  ⟨symR, isinR, cusipR, cikR, exR, ctryR⟩

/-- Model of `NormalizerAgent._score`: confidence and reason tags for one
equity against the extracted fields and the raw (trimmed) input text.  The
`≠ ""` guards model Python truthiness of the equity's string fields. -/
def scoreEquity (th : NormThresholds) (eq : Equity) (ex : Extracted) (inputStr : String) :
    ℚ × List String :=
  if (match ex.isin with
      | some v => eq.isin ≠ "" && upperStr eq.isin = v
      | none => false) then (th.exactTh, ["isin_exact"])
  else if (match ex.cusip with
      | some v => eq.cusip ≠ "" && upperStr eq.cusip = v
      | none => false) then (th.highTh, ["cusip_exact"])
  else if (match ex.cik with
      | some v => eq.cik ≠ "" && upperStr eq.cik = v
      | none => false) then (th.highTh, ["cik_exact"])
  else
    let symHit : Bool :=
      match ex.symbol with
      | some v => eq.symbol ≠ "" && upperStr eq.symbol = v
      | none => false
    let exchHit : Bool :=
      match ex.exchange with
      | some v => eq.exchange ≠ "" && strHasSub v (upperStr eq.exchange)
      | none => false
    let ctryHit : Bool :=
      match ex.country, eq.country with
      | some v, some ec => ec ≠ "" && v = upperStr ec
      | _, _ => false
    let s1 : ℚ × List String :=
      if symHit then (max 0 (mkRat 9 10), ["symbol_exact"]) else (0, [])
    let s2 : ℚ × List String :=
      if symHit && exchHit then (max s1.1 (mkRat 95 100), s1.2 ++ ["exchange_match"]) else s1
    let s3 : ℚ × List String :=
      if symHit && ctryHit then (max s2.1 (mkRat 92 100), s2.2 ++ ["country_match"]) else s2
    let inTextHit : Bool := eq.symbol ≠ "" && strHasSub (upperStr eq.symbol) (upperStr inputStr)
    let s4 : ℚ × List String :=
      if inTextHit then (max s3.1 (mkRat 7 10), s3.2 ++ ["symbol_in_text"]) else s3
    if exchHit then (max s4.1 (mkRat 3 10), s4.2 ++ ["exchange_only"]) else s4

/-- The descending-confidence ordering used by `scored.sort(key=…, reverse=True)`. -/
def confGe (a b : NormalizationResult) : Prop := b.confidence ≤ a.confidence

instance : DecidableRel confGe := fun _ _ => inferInstanceAs (Decidable (_ ≤ _))

instance : IsTotal NormalizationResult confGe := ⟨fun a b => le_total b.confidence a.confidence⟩

instance : IsTrans NormalizationResult confGe := ⟨fun _ _ _ h1 h2 => le_trans h2 h1⟩

/-- The positively-scored candidates, in directory order, each constructed with
`ambiguous := false` (the loop body of `normalize`). -/
def scoredOf (eqs : List Equity) (th : NormThresholds) (inputTrim : String) :
    List NormalizationResult :=
  eqs.filterMap (fun eq =>
    let sc := scoreEquity th eq (extractIdentifiers inputTrim) inputTrim
    if 0 < sc.1 then some ⟨eq, sc.1, sc.2, false⟩ else none)

/-- The full scored candidate list after the stable descending sort and before
ambiguity marking or `top_k` truncation. -/
def sortedScored (eqs : List Equity) (th : NormThresholds) (inputStr : String) :
    List NormalizationResult :=
  List.insertionSort confGe (scoredOf eqs th (trimStr inputStr))

/-- The ambiguity-marking pass of `normalize`: when the top two results
straddle the ambiguity window, set the flag on every result at or above
`ambiguous_low`. -/
def markAmbiguous (th : NormThresholds) (l : List NormalizationResult) :
    List NormalizationResult :=
  match l with
  | a :: b :: _ =>
    if a.confidence ≤ th.ambiguousHigh ∧ th.ambiguousLow ≤ b.confidence then
      l.map (fun r =>
        if th.ambiguousLow ≤ r.confidence then { r with ambiguous := true } else r)
    else l
  | _ => l

/-- Model of `NormalizerAgent.normalize`. -/
def normalize (eqs : List Equity) (th : NormThresholds) (inputStr : String) (topK : Nat) :
    List NormalizationResult :=
  if inputStr = "" then []
  else
    let sorted := sortedScored eqs th inputStr
    match sorted with
    | [] => []
    | top :: _ =>
      if top.confidence < th.reject then []
      else (markAmbiguous th sorted).take topK



/-! ### Trade Validation Engine (`src/oms/oms_agent.py`, `src/oms/schema.py`) -/

/-- Issue severity; `_issue` only ever constructs these two levels. -/
inductive Severity
  | WARNING
  | ERROR
deriving DecidableEq, Repr

/-- Aggregate validation status returned by `OMSAgent._status`. -/
inductive VStatus
  | OK
  | WARNING
  | ERROR
deriving DecidableEq, Repr

/-- A validation issue, as built by `_issue(type, severity, message, field)`;
`itype` models the `type` key. -/
structure Issue where
  itype : String
  severity : Severity
  message : String
  field : String
deriving DecidableEq, Repr

/-- Model of the `_issue` helper. -/
def mkIssue (t : String) (sev : Severity) (msg : String) (fld : String) : Issue :=
  ⟨t, sev, msg, fld⟩

/-- Model of `OMSAgent._status`: ERROR if any issue is an ERROR, else WARNING
if any issue is a WARNING, else OK. -/
def statusOf (issues : List Issue) : VStatus :=
  if issues.any (fun i => i.severity = Severity.ERROR) then VStatus.ERROR
  else if issues.any (fun i => i.severity = Severity.WARNING) then VStatus.WARNING
  else VStatus.OK

/-- A trade record that passed pydantic validation (`oms/schema.py`): ticker
and currency uppercased/trimmed, quantity and price positive, currency three
characters, both dates parseable. -/
structure Trade where
  ticker : String
  quantity : ℚ
  price : ℚ
  currency : String
  counterparty : String
  trade_dt : String
  settle_dt : String
deriving DecidableEq, Repr

/-- The untyped trade dictionary accepted by `OMSAgent.run`: each expected key
either absent (`none`) or bound to a value of the expected primitive type. -/
structure RawTrade where
  ticker : Option String
  quantity : Option ℚ
  price : Option ℚ
  currency : Option String
  counterparty : Option String
  trade_dt : Option String
  settle_dt : Option String
deriving DecidableEq, Repr

/-- A required string field is missing when absent, `None` or the empty string
(`trade_json[field] in (None, "")`). -/
def missingStr : Option String → Bool
  | none => true
  | some s => s = ""

/-- A required numeric field is missing only when absent or `None`. -/
def missingNum : Option ℚ → Bool
  | none => true
  | some _ => false

/-- Model of `OMSAgent._check_required`: one ERROR `missing_field` issue per
absent/empty required key, in the fixed key order. -/
def checkRequired (raw : RawTrade) : List Issue :=
  (if missingStr raw.ticker then [mkIssue "missing_field" .ERROR "Missing ticker" "ticker"] else []) ++
  (if missingNum raw.quantity then [mkIssue "missing_field" .ERROR "Missing quantity" "quantity"] else []) ++
  (if missingNum raw.price then [mkIssue "missing_field" .ERROR "Missing price" "price"] else []) ++
  (if missingStr raw.currency then [mkIssue "missing_field" .ERROR "Missing currency" "currency"] else []) ++
  (if missingStr raw.counterparty then [mkIssue "missing_field" .ERROR "Missing counterparty" "counterparty"] else []) ++
  (if missingStr raw.trade_dt then [mkIssue "missing_field" .ERROR "Missing trade_dt" "trade_dt"] else []) ++
  (if missingStr raw.settle_dt then [mkIssue "missing_field" .ERROR "Missing settle_dt" "settle_dt"] else [])

/-- The per-field pydantic validation failures of `Trade(**trade_json)`, in
field-declaration order, rendered as `schema_validation` ERROR issues the way
`OMSAgent._validation_issues` does. -/
def fieldErrs (raw : RawTrade) : List Issue :=
  (match raw.ticker with
   | none => [mkIssue "schema_validation" .ERROR "Field required" "ticker"]
   | some _ => []) ++
  (match raw.quantity with
   | none => [mkIssue "schema_validation" .ERROR "Field required" "quantity"]
   | some q => if q ≤ 0 then [mkIssue "schema_validation" .ERROR "must be positive" "quantity"] else []) ++
  (match raw.price with
   | none => [mkIssue "schema_validation" .ERROR "Field required" "price"]
   | some p => if p ≤ 0 then [mkIssue "schema_validation" .ERROR "must be positive" "price"] else []) ++
  (match raw.currency with
   | none => [mkIssue "schema_validation" .ERROR "Field required" "currency"]
   | some ccy =>
     if (upperStr (trimStr ccy)).length ≠ 3 then
       [mkIssue "schema_validation" .ERROR "currency must be 3-letter ISO" "currency"]
     else []) ++
  (match raw.counterparty with
   | none => [mkIssue "schema_validation" .ERROR "Field required" "counterparty"]
   | some _ => []) ++
  (match raw.trade_dt with
   | none => [mkIssue "schema_validation" .ERROR "Field required" "trade_dt"]
   | some s => if (parseIso s).isSome then [] else [mkIssue "schema_validation" .ERROR ("invalid date " ++ s) "trade_dt"]) ++
  (match raw.settle_dt with
   | none => [mkIssue "schema_validation" .ERROR "Field required" "settle_dt"]
   | some s => if (parseIso s).isSome then [] else [mkIssue "schema_validation" .ERROR ("invalid date " ++ s) "settle_dt"])

/-- Model of `OMSAgent._parse_trade` (`Trade(**trade_json)`): a validated
`Trade` when every field validates, otherwise the list of schema issues that
`_validation_issues` derives from the pydantic `ValidationError`. -/
def parseTrade (raw : RawTrade) : Except (List Issue) Trade :=
  match raw.ticker, raw.quantity, raw.price, raw.currency, raw.counterparty,
        raw.trade_dt, raw.settle_dt with
  | some tk, some q, some p, some ccy, some cp, some td, some sd =>
    if fieldErrs raw = [] then
      .ok ⟨upperStr (trimStr tk), q, p, upperStr (trimStr ccy), cp, td, sd⟩
    else .error (fieldErrs raw)
  | _, _, _, _, _, _, _ => .error (fieldErrs raw)

/-- Model of `OMSAgent._check_identifier`: delegate to the normalizer with
`top_k = 3`; no match is an ERROR, an ambiguous or low-confidence top match a
WARNING each. -/
def checkIdentifier (eqs : List Equity) (th : NormThresholds) (t : Trade) : List Issue :=
  match normalize eqs th t.ticker 3 with
  | [] => [mkIssue "identifier_mismatch" .ERROR "Ticker not recognized" "ticker"]
  | top :: _ =>
    (if top.ambiguous then [mkIssue "identifier_mismatch" .WARNING "Ticker ambiguous" "ticker"] else []) ++
    (if top.confidence < mkRat 9 10 then [mkIssue "identifier_mismatch" .WARNING "Low-confidence match" "ticker"] else [])

/-- Model of `OMSAgent._check_currency` with the agent's reference currency
map; the reference currency defaults to USD. -/
def checkCurrency (ccyMap : List (String × String)) (t : Trade) : List Issue :=
  let ref := (alistGet ccyMap t.ticker).getD "USD"
  if t.currency ≠ ref then
    [mkIssue "currency_mismatch" .WARNING ("Currency " ++ t.currency ++ " vs ref " ++ ref) "currency"]
  else []

/-- The price-deviation thresholds of the agent (`DEFAULT_THRESHOLDS`). -/
structure PriceThresholds where
  warning : ℚ
  error : ℚ
deriving DecidableEq, Repr

/-- Defaults: warning 0.02, error 0.05. -/
def defaultPriceThresholds : PriceThresholds := ⟨mkRat 2 100, mkRat 5 100⟩

/-- The market price source seen by the OMS agent (`get_price_snapshot`,
restricted to the `price` field it reads). -/
def OMSPriceEnv : Type := String → Nat → Except String ℚ

/-- Model of `OMSAgent._check_price`: a fetch failure degrades to a single
WARNING naming the failure; on success the relative deviation is classified
against the error and warning thresholds (`snap.price` equal to zero yields
deviation 0 through the Python truthiness guard).  The deviation messages
carry a formatted percentage in the source; the constant text stands in for
it. -/
def checkPrice (env : OMSPriceEnv) (thr : PriceThresholds) (t : Trade) : List Issue :=
  match parseIso t.trade_dt with
  | none => []
  | some d =>
    match env t.ticker d with
    | .error e => [mkIssue "price_tolerance" .WARNING ("Market data unavailable: " ++ e) "price"]
    | .ok sp =>
      let dev : ℚ := if sp = 0 then 0 else ratDiv |ratSub t.price sp| sp
      if thr.error < dev then
        [mkIssue "price_tolerance" .ERROR "Price deviates from market" "price"]
      else if thr.warning < dev then
        [mkIssue "price_tolerance" .WARNING "Price deviates from market" "price"]
      else []

/-- Model of `OMSAgent._check_counterparty` (an empty counterparty is falsy and
skips the check). -/
def checkCounterparty (valid : List String) (t : Trade) : List Issue :=
  if t.counterparty ≠ "" && !(valid.contains (upperStr (trimStr t.counterparty))) then
    [mkIssue "counterparty" .WARNING "Counterparty not in approved list" "counterparty"]
  else []

/-- Model of `OMSAgent._check_settlement` with the agent's `settlement_days`
`n`.  The window deviation is the difference of the two ordinals, i.e. the
`timedelta.days` of `settle_dt - trade_dt` — calendar days.  For trades built
by `parseTrade` both dates parse; the fallback branch is unreachable there. -/
def checkSettlement (n : ℤ) (t : Trade) : List Issue :=
  match parseIso t.trade_dt, parseIso t.settle_dt with
  | some td, some sd =>
    (if sd < td then [mkIssue "settlement_date" .ERROR "Settlement before trade date" "settle_dt"] else []) ++
    (if 5 ≤ weekdayOf sd then [mkIssue "settlement_date" .ERROR "Settlement on weekend" "settle_dt"] else []) ++
    (let delta : ℤ := (sd : ℤ) - (td : ℤ)
     if delta < n then [mkIssue "settlement_date" .ERROR "Settlement earlier than expected" "settle_dt"]
     else if n + 1 < delta then [mkIssue "settlement_date" .WARNING "Non-standard settlement interval" "settle_dt"]
     else [])
  | _, _ => []

/-- The per-instance configuration of `OMSAgent.__init__` that the checks read. -/
structure OMSConfig where
  equities : List Equity
  normTh : NormThresholds
  priceTh : PriceThresholds
  counterparties : List String
  ccyMap : List (String × String)
  settlementDays : ℤ

/-- Model of the issue collection of `OMSAgent.run` on a dictionary input: the
required-fields issues, then the schema issues of the parse attempt; the five
typed-trade checks run, in order, only when the parse produced a trade. -/
def runIssues (cfg : OMSConfig) (env : OMSPriceEnv) (raw : RawTrade) : List Issue :=
  checkRequired raw ++
  (match parseTrade raw with
   | .error es => es
   | .ok t =>
     checkIdentifier cfg.equities cfg.normTh t ++
     checkCurrency cfg.ccyMap t ++
     checkPrice env cfg.priceTh t ++
     checkCounterparty cfg.counterparties t ++
     checkSettlement cfg.settlementDays t)

/-- The status field of the `OMSAgent.run` result. -/
def runStatus (cfg : OMSConfig) (env : OMSPriceEnv) (raw : RawTrade) : VStatus :=
  statusOf (runIssues cfg env raw)


/-! ### Mark Classification Engine (`src/pricing/normalizer.py`, `src/pricing/schema.py`) -/

/-- The five mark classifications, in the precedence order documented in
`_enrich_one`. -/
inductive Classification
  | OK
  | REVIEW_NEEDED
  | OUT_OF_TOLERANCE
  | STALE_MARK
  | NO_MARKET_DATA
deriving DecidableEq, Repr

/-- A per-instrument tolerance override entry
(`tolerances["instrument_overrides"][ticker]`); either threshold may be
absent, falling back to the global one. -/
structure TolOverride where
  okThreshold : Option ℚ
  reviewThreshold : Option ℚ
deriving DecidableEq, Repr

/-- The tolerance configuration read by the normalizer (`load_tolerances`
plus `instrument_overrides`); the retry/backoff/worker knobs do not affect
the value computed for a deterministic price source and are omitted. -/
structure Tolerances where
  okThreshold : ℚ
  reviewThreshold : ℚ
  staleDays : ℤ
  overrides : List (String × TolOverride)
deriving DecidableEq, Repr

/-- The configuration defaults: ok 0.02, review 0.05, stale_days 5, no
overrides. -/
def defaultTolerances : Tolerances := ⟨mkRat 2 100, mkRat 5 100, 5, []⟩

/-- Effective ok-threshold for a ticker (`overrides[ticker].get("ok_threshold",
global)`). -/
def effOkThreshold (tol : Tolerances) (ticker : String) : ℚ :=
  match alistGet tol.overrides ticker with
  | some ov => ov.okThreshold.getD tol.okThreshold
  | none => tol.okThreshold

/-- Effective review-threshold for a ticker. -/
def effReviewThreshold (tol : Tolerances) (ticker : String) : ℚ :=
  match alistGet tol.overrides ticker with
  | some ov => ov.reviewThreshold.getD tol.reviewThreshold
  | none => tol.reviewThreshold

/-- Outcome of `fetch_market_price`: a price/date dictionary or an error
dictionary. -/
inductive FetchRes
  | ok (price : ℚ) (pdate : String)
  | fail (msg : String)
deriving DecidableEq, Repr

/-- The per-instance price cache `self._cache`, keyed by (uppercased ticker,
as-of date string). -/
abbrev PriceCache : Type := List ((String × String) × FetchRes)

/-- The external market price source `get_price_snapshot`, restricted to the
`price` and `date` fields the normalizer reads. -/
def MarketDataEnv : Type := String → Nat → Except String (ℚ × String)

/-- The error-message classification applied by `fetch_market_price` once
retries are exhausted. -/
def classifyFetchError (e : String) : String :=
  let m := lowerStr e
  if strHasSub "network" m || strHasSub "connection" m then "network_error: " ++ e
  else if strHasSub "not found" m || strHasSub "invalid ticker" m then "ticker_not_found"
  else if strHasSub "rate limit" m then "rate_limit_exceeded"
  else "fetch_failed: " ++ e

/-- Model of `MarketNormalizer.fetch_market_price`: consult the cache first;
on a miss parse the date, call the source, and cache only successful results.
For the deterministic source model the bounded retry loop returns the same
outcome as a single attempt.  The source's `invalid_date` message carries the
exception text; the constant stands in for it. -/
def fetchMarketPrice (env : MarketDataEnv) (c : PriceCache) (ticker asOf : String) :
    FetchRes × PriceCache :=
  let key := (upperStr ticker, asOf)
  match alistGet c key with
  | some r => (r, c)
  | none =>
    match parseIso asOf with
    | none => (FetchRes.fail "invalid_date", c)
    | some d =>
      match env ticker d with
      | .ok pr => (FetchRes.ok pr.1 pr.2, alistPut c key (FetchRes.ok pr.1 pr.2))
      | .error e => (FetchRes.fail (classifyFetchError e), c)

/-- The comparison fields computed by `compare_mark_to_market`. -/
structure CompareOut where
  market_price : Option ℚ
  deviation_absolute : Option ℚ
  deviation_percentage : Option ℚ
  classification : Classification
deriving DecidableEq, Repr

/-- Model of `MarketNormalizer.compare_mark_to_market`: a missing market price
is NO_MARKET_DATA; a zero market price is Python-falsy, leaves the percentage
deviation `None` and is classified NO_MARKET_DATA as well; otherwise the
percentage deviation decides OK / REVIEW_NEEDED / OUT_OF_TOLERANCE under the
(possibly overridden) thresholds. -/
def compareMarkToMarket (tol : Tolerances) (internalMark : ℚ) (marketPrice : Option ℚ)
    (ticker : String) : CompareOut :=
  match marketPrice with
  | none => ⟨none, none, none, .NO_MARKET_DATA⟩
  | some mp =>
    let okTh := effOkThreshold tol ticker
    let reviewTh := effReviewThreshold tol ticker
    let devAbs := ratSub internalMark mp
    let devPct : Option ℚ := if mp = 0 then none else some (ratDiv |devAbs| mp)
    let cls :=
      match devPct with
      | none => Classification.NO_MARKET_DATA
      | some dp =>
        if reviewTh < dp then Classification.OUT_OF_TOLERANCE
        else if okTh < dp then Classification.REVIEW_NEEDED
        else Classification.OK
    ⟨some mp, some devAbs, devPct, cls⟩

/-- Model of `MarketNormalizer._is_stale` against the current date `today`
(an ordinal, standing for `datetime.utcnow().date()`). -/
def isStale (tol : Tolerances) (today : Nat) (asOf : String) : Bool :=
  match parseIso asOf with
  | none => false
  | some d => tol.staleDays < (today : ℤ) - (d : ℤ)

/-- A mark that passed pydantic validation (`pricing/schema.py`): ticker
uppercased/trimmed and `as_of_date` parseable; the optional pass-through
metadata fields (notes, source, ids, …) are inert and omitted. -/
structure Mark where
  ticker : String
  internal_mark : ℚ
  as_of_date : String
deriving DecidableEq, Repr

/-- The enriched mark produced by `_enrich_one` (`EnrichedMark` without the
inert pass-through metadata; `explanation` is attached later by the pricing
agent and stays `None` here). -/
structure EnrichedMark where
  ticker : String
  internal_mark : ℚ
  as_of_date : String
  market_price : Option ℚ
  deviation_absolute : Option ℚ
  deviation_percentage : Option ℚ
  classification : Classification
  market_data_date : Option String
  market_data_source : Option String
  fetch_timestamp : Option String
  tolerance_override_applied : Option Bool
  error : Option String
deriving DecidableEq, Repr

/-- The early-return result of `_enrich_one` when the optional refmaster
rejects the ticker; the fields not set in that constructor call default to
`None`. -/
def unknownTickerMark (m : Mark) : EnrichedMark :=
  ⟨m.ticker, m.internal_mark, m.as_of_date, none, none, none, .NO_MARKET_DATA,
    none, none, none, none, some "unknown_ticker"⟩

/-- The enrichment fields `_enrich_one` computes from a fetch outcome `r`:
comparison, staleness override, and the final fetch-error override, with
`fetch_timestamp` left unset (the caller stamps it). -/
def classifyFromFetch (tol : Tolerances) (today : Nat) (m : Mark) (r : FetchRes) :
    EnrichedMark :=
  let mp : Option ℚ := match r with | .ok p _ => some p | .fail _ => none
  let cmp := compareMarkToMarket tol m.internal_mark mp m.ticker
  let mdDate : Option String := match r with | .ok _ pd => some pd | .fail _ => none
  let cls1 :=
    if isStale tol today m.as_of_date && !(cmp.classification = Classification.NO_MARKET_DATA) then
      Classification.STALE_MARK
    else cmp.classification
  let cls2 := match r with | .fail _ => Classification.NO_MARKET_DATA | .ok _ _ => cls1
  let errF : Option String := match r with | .fail e => some e | .ok _ _ => none
  ⟨m.ticker, m.internal_mark, m.as_of_date, cmp.market_price, cmp.deviation_absolute,
    cmp.deviation_percentage, cls2, mdDate, some "financialdatasets.ai", none,
    some (alistGet tol.overrides m.ticker).isSome, errF⟩

/-- The optional refmaster validation of `_enrich_one`: the agent's directory
and thresholds, when configured. -/
def RefCheck : Type := Option (List Equity × NormThresholds)

/-- Model of `MarketNormalizer._enrich_one` on a validated mark: optional
refmaster rejection, then fetch (through the cache), comparison, staleness and
fetch-error overrides, stamped with the run's `utcnow` timestamp `ts`. -/
def enrichOne (refm : RefCheck) (env : MarketDataEnv) (tol : Tolerances) (today : Nat)
    (ts : String) (c : PriceCache) (m : Mark) : EnrichedMark × PriceCache :=
  let proceed :=
    let rc := fetchMarketPrice env c m.ticker m.as_of_date
    ({ classifyFromFetch tol today m rc.1 with fetch_timestamp := some ts }, rc.2)
  match refm with
  | some rm => if normalize rm.1 rm.2 m.ticker 1 = [] then (unknownTickerMark m, c) else proceed
  | none => proceed

/-- Model of `MarketNormalizer.enrich_marks` on validated marks in the
sequential (`max_workers = 1`) configuration, threading the price cache. -/
def enrichMarks (refm : RefCheck) (env : MarketDataEnv) (tol : Tolerances) (today : Nat)
    (ts : String) : PriceCache → List Mark → List EnrichedMark × PriceCache
  | c, [] => ([], c)
  | c, m :: ms =>
    let ec := enrichOne refm env tol today ts c m
    let rest := enrichMarks refm env tol today ts ec.2 ms
    (ec.1 :: rest.1, rest.2)

/-- An untyped mark record of the batch input: each field absent, of the wrong
primitive type, or a value. -/
inductive RawField
  | missing
  | notText
  | text (s : String)
deriving DecidableEq, Repr

/-- An untyped mark record as passed to `enrich_marks`. -/
structure RawMark where
  ticker : RawField
  internal_mark : Option ℚ
  as_of_date : RawField
deriving DecidableEq, Repr

/-- Model of `Mark(**record)` (`pricing/schema.py`): pydantic validation of one
raw record, raising (returning `.error`) on a missing or non-string ticker, a
missing numeric mark, or an `as_of_date` that does not parse as an ISO date. -/
def parseRawMark (r : RawMark) : Except String Mark :=
  match r.ticker with
  | .missing => .error "Field required: ticker"
  | .notText => .error "Input should be a valid string: ticker"
  | .text tk =>
    match r.internal_mark with
    | none => .error "Field required: internal_mark"
    | some im =>
      match r.as_of_date with
      | .missing => .error "Field required: as_of_date"
      | .notText => .error "Input should be a valid string: as_of_date"
      | .text ds =>
        if (parseIso ds).isSome then .ok ⟨upperStr (trimStr tk), im, ds⟩
        else .error ("Invalid as_of_date format (YYYY-MM-DD expected): " ++ ds)

/-- Model of `enrich_marks` on raw batch records: `_enrich_one` validates each
record with `Mark(**record)` inside the loop and `enrich_marks` installs no
handler, so the first pydantic failure propagates and aborts the whole batch. -/
def enrichMarksRaw (refm : RefCheck) (env : MarketDataEnv) (tol : Tolerances) (today : Nat)
    (ts : String) : PriceCache → List RawMark → Except String (List EnrichedMark × PriceCache)
  | c, [] => .ok ([], c)
  | c, r :: rs =>
    match parseRawMark r with
    | .error e => .error e
    | .ok m =>
      let ec := enrichOne refm env tol today ts c m
      match enrichMarksRaw refm env tol today ts ec.2 rs with
      | .error e => .error e
      | .ok pr => .ok (ec.1 :: pr.1, pr.2)

/-- An enriched mark with its `fetch_timestamp` blanked, for comparing two
runs up to the per-run wall-clock stamp. -/
def eraseTs (e : EnrichedMark) : EnrichedMark := { e with fetch_timestamp := none }

/-- The fetch outcome computed with no cache involved. -/
def freshFetch (env : MarketDataEnv) (ticker asOf : String) : FetchRes :=
  match parseIso asOf with
  | none => FetchRes.fail "invalid_date"
  | some d =>
    match env ticker d with
    | .ok pr => FetchRes.ok pr.1 pr.2
    | .error e => FetchRes.fail (classifyFetchError e)

/-- The cache- and timestamp-independent enrichment of one mark, used to show
that enrichment depends only on the source and the mark. -/
def freshEnrich (refm : RefCheck) (env : MarketDataEnv) (tol : Tolerances) (today : Nat)
    (m : Mark) : EnrichedMark :=
  match refm with
  | some rm =>
    if normalize rm.1 rm.2 m.ticker 1 = [] then unknownTickerMark m
    else classifyFromFetch tol today m (freshFetch env m.ticker m.as_of_date)
  | none => classifyFromFetch tol today m (freshFetch env m.ticker m.as_of_date)

/-- A price cache is coherent with the source when every entry is the
successful fresh outcome for its key.  Runs of `enrich_marks` only create such
entries (`cache only successful results`), so any cache warmed by previous
runs against the same source is coherent. -/
def Coherent (env : MarketDataEnv) (c : PriceCache) : Prop :=
  ∀ tk asOf r, alistGet c (tk, asOf) = some r →
    ∃ d p pd, parseIso asOf = some d ∧ env tk d = Except.ok (p, pd) ∧ r = FetchRes.ok p pd


deriving instance DecidableEq for Except

/-! ### Concrete fixtures used by witnesses and counterexamples -/

/-- A directory entry for AAPL on NASDAQ. -/
def eqAAPL : Equity := ⟨"AAPL", "US0378331005", "", "", "NASDAQ", some "US"⟩

/-- A second NASDAQ entry whose symbol does not occur in the sample inputs. -/
def eqZZZQ : Equity := ⟨"ZZZQ", "", "", "", "NASDAQ", none⟩

/-- Two NYSE entries with four-letter symbols sharing a root. -/
def eqABCD : Equity := ⟨"ABCD", "", "", "", "NYSE", none⟩

/-- See `eqABCD`. -/
def eqABCE : Equity := ⟨"ABCE", "", "", "", "NYSE", none⟩

/-- An OMS agent configuration with the default thresholds and counterparties
and a one-entry directory. -/
def omsCfg : OMSConfig :=
  ⟨[eqAAPL], defaultNormThresholds, defaultPriceThresholds,
    ["MS", "GS", "JPM", "BAML", "BARC", "CITI"], [], 2⟩

/-- A price source whose fetch always fails. -/
def envDown : OMSPriceEnv := fun _ _ => .error "API down"

/-- A price source always returning a 100 close. -/
def envP100 : OMSPriceEnv := fun _ _ => .ok 100

/-- A trade dictionary that passes schema validation but has an unapproved
counterparty. -/
def rawTradeOk : RawTrade :=
  ⟨some "AAPL", some 100, some 5, some "USD", some "EVIL",
    some "2024-06-05", some "2024-06-07"⟩

/-- The trade that `parseTrade` produces from `rawTradeOk`. -/
def tradeOkParsed : Trade := ⟨"AAPL", 100, 5, "USD", "EVIL", "2024-06-05", "2024-06-07"⟩

/-- The same dictionary with a non-positive price, which fails schema
validation. -/
def rawTradeBadPrice : RawTrade := { rawTradeOk with price := some (-5) }

/-- A trade dated Friday 2024-06-07 settling Tuesday 2024-06-11, exactly two
business days later. -/
def tradeFriTue : Trade := ⟨"AAPL", 100, 100, "USD", "MS", "2024-06-07", "2024-06-11"⟩

/-- A trade whose price deviates 20% from the `envP100` market close. -/
def tradeDev20 : Trade := ⟨"AAPL", 100, 120, "USD", "MS", "2024-06-05", "2024-06-07"⟩

/-- A market data source returning a zero close price. -/
def envZeroPrice : MarketDataEnv := fun _ _ => .ok (0, "2024-06-01")

/-- A market data source returning a 100 close. -/
def envMkt100 : MarketDataEnv := fun _ _ => .ok (100, "2024-06-01")

/-- A market data source whose fetch always fails. -/
def envMktDown : MarketDataEnv := fun _ _ => .error "boom"

/-- A mark of 100 dated 2024-06-01. -/
def markA : Mark := ⟨"AAPL", 100, "2024-06-01"⟩

/-- A mark of 106 dated 2024-06-01 (6% above the `envMkt100` close). -/
def markB : Mark := ⟨"AAPL", 106, "2024-06-01"⟩

/-- Ordinal of 2024-06-20, nineteen days after the marks above (stale under
the default five-day threshold). -/
def todayStale : Nat := 739057

/-- Ordinal of 2024-06-03, two days after the marks above (not stale). -/
def todayFresh : Nat := 739040

/-- A well-formed raw mark record. -/
def rawMarkOk : RawMark := ⟨.text "AAPL", some 100, .text "2024-06-01"⟩

/-- A raw mark record whose `as_of_date` does not parse as an ISO date. -/
def rawMarkBadDate : RawMark := ⟨.text "MSFT", some 50, .text "2024-13-40"⟩


/-! ### Theorems -/

/-- The numerator/denominator subtraction used by the embedding agrees with
rational subtraction. -/
theorem ratSub_eq_sub (a b : ℚ) : ratSub a b = a - b := by
  have had : ((a.den : ℚ)) ≠ 0 := by positivity
  have hbd : ((b.den : ℚ)) ≠ 0 := by positivity
  rw [ratSub, Rat.divInt_eq_div]
  push_cast
  conv_rhs => rw [← Rat.num_div_den a, ← Rat.num_div_den b]
  field_simp
  ring

/-- The numerator/denominator division used by the embedding agrees with
rational division (both send a zero divisor to 0). -/
theorem ratDiv_eq_div (a b : ℚ) : ratDiv a b = a / b := by
  rcases eq_or_ne b 0 with rfl | hb
  · simp [ratDiv]
  · have had : ((a.den : ℚ)) ≠ 0 := by positivity
    have hbd : ((b.den : ℚ)) ≠ 0 := by positivity
    have hbn : ((b.num : ℚ)) ≠ 0 := by
      exact_mod_cast Rat.num_ne_zero.mpr hb
    rw [ratDiv, Rat.divInt_eq_div]
    push_cast
    conv_rhs => rw [← Rat.num_div_den a, ← Rat.num_div_den b]
    field_simp
    exact Or.inl (mul_comm _ _)

/-- `statusOf` returns ERROR exactly when some issue is an ERROR. -/
theorem statusOf_eq_error_iff (issues : List Issue) :
    statusOf issues = VStatus.ERROR ↔ ∃ i ∈ issues, i.severity = Severity.ERROR := by
  by_cases hE : ∃ i ∈ issues, i.severity = Severity.ERROR
  · have hb : issues.any (fun i => i.severity = Severity.ERROR) = true := by simpa using hE
    simp [statusOf, hb, hE]
  · have hb : issues.any (fun i => i.severity = Severity.ERROR) = false := by
      simpa using hE
    by_cases hW : issues.any (fun i => i.severity = Severity.WARNING) = true
    · simp [statusOf, hb, hW, hE]
    · simp only [Bool.not_eq_true] at hW
      simp [statusOf, hb, hW, hE]

/-- `statusOf` returns WARNING exactly when no issue is an ERROR and some
issue is a WARNING. -/
theorem statusOf_eq_warning_iff (issues : List Issue) :
    statusOf issues = VStatus.WARNING ↔
      ((∀ i ∈ issues, i.severity ≠ Severity.ERROR) ∧
        ∃ i ∈ issues, i.severity = Severity.WARNING) := by
  by_cases hE : ∃ i ∈ issues, i.severity = Severity.ERROR
  · have hb : issues.any (fun i => i.severity = Severity.ERROR) = true := by simpa using hE
    obtain ⟨i, hi, hsev⟩ := hE
    simp only [statusOf, hb, if_true]
    constructor
    · intro h; cases h
    · rintro ⟨hall, -⟩
      exact absurd hsev (hall i hi)
  · have hb : issues.any (fun i => i.severity = Severity.ERROR) = false := by
      simpa using hE
    have hall : ∀ i ∈ issues, i.severity ≠ Severity.ERROR := by
      intro i hi h
      exact hE ⟨i, hi, h⟩
    by_cases hW : ∃ i ∈ issues, i.severity = Severity.WARNING
    · have hbW : issues.any (fun i => i.severity = Severity.WARNING) = true := by simpa using hW
      simp [statusOf, hb, hbW, hW]
      exact hall
    · have hbW : issues.any (fun i => i.severity = Severity.WARNING) = false := by
        simpa using hW
      simp [statusOf, hb, hbW, hW]

/-- `statusOf` returns OK exactly when no issue is an ERROR or WARNING. -/
theorem statusOf_eq_ok_iff (issues : List Issue) :
    statusOf issues = VStatus.OK ↔
      ∀ i ∈ issues, i.severity ≠ Severity.ERROR ∧ i.severity ≠ Severity.WARNING := by
  by_cases hE : ∃ i ∈ issues, i.severity = Severity.ERROR
  · have hb : issues.any (fun i => i.severity = Severity.ERROR) = true := by simpa using hE
    obtain ⟨i, hi, hsev⟩ := hE
    simp only [statusOf, hb, if_true]
    constructor
    · intro h; cases h
    · intro hall
      exact absurd hsev (hall i hi).1
  · have hb : issues.any (fun i => i.severity = Severity.ERROR) = false := by
      simpa using hE
    by_cases hW : ∃ i ∈ issues, i.severity = Severity.WARNING
    · have hbW : issues.any (fun i => i.severity = Severity.WARNING) = true := by simpa using hW
      obtain ⟨i, hi, hsev⟩ := hW
      simp only [statusOf, hb, Bool.false_eq_true, if_false, hbW, if_true]
      constructor
      · intro h; cases h
      · intro hall
        exact absurd hsev (hall i hi).2
    · have hbW : issues.any (fun i => i.severity = Severity.WARNING) = false := by
        simpa using hW
      simp only [statusOf, hb, Bool.false_eq_true, if_false, hbW, true_iff]
      intro i hi
      constructor
      · intro h; exact hE ⟨i, hi, h⟩
      · intro h; exact hW ⟨i, hi, h⟩

/-- Claim C2: the status of a validation run is ERROR iff the issue list holds
an ERROR-severity issue, WARNING iff it holds no ERROR but at least one
WARNING, OK iff it holds neither, and an empty issue list yields OK. -/
theorem c2_status_rule (issues : List Issue) :
    (statusOf issues = VStatus.ERROR ↔ ∃ i ∈ issues, i.severity = Severity.ERROR) ∧
    (statusOf issues = VStatus.WARNING ↔
      ((∀ i ∈ issues, i.severity ≠ Severity.ERROR) ∧
        ∃ i ∈ issues, i.severity = Severity.WARNING)) ∧
    (statusOf issues = VStatus.OK ↔
      ∀ i ∈ issues, i.severity ≠ Severity.ERROR ∧ i.severity ≠ Severity.WARNING) ∧
    (issues = [] → statusOf issues = VStatus.OK) :=
  ⟨statusOf_eq_error_iff issues, statusOf_eq_warning_iff issues, statusOf_eq_ok_iff issues,
    fun h => by subst h; rfl⟩

/-- Witness for C2 at concrete runs: the empty issue list yields OK, and a
list with one WARNING and one ERROR yields ERROR. -/
theorem c2_status_rule_witness :
    statusOf [] = VStatus.OK ∧
    statusOf [mkIssue "counterparty" .WARNING "w" "counterparty",
      mkIssue "settlement_date" .ERROR "e" "settle_dt"] = VStatus.ERROR := by
  constructor
  · exact (c2_status_rule []).2.2.2 rfl
  · exact (c2_status_rule _).1.mpr ⟨mkIssue "settlement_date" .ERROR "e" "settle_dt",
      by decide, rfl⟩


/-- The embedded deviation of the price check equals the claim's formula
`|trade.price − market.price| / market.price` (at a zero market price both
sides are 0: the code forces 0 through the truthiness guard, and division by
zero is 0 in ℚ). -/
theorem priceDeviationEq (tp sp : ℚ) :
    (if sp = 0 then 0 else ratDiv |ratSub tp sp| sp) = |tp - sp| / sp := by
  rcases eq_or_ne sp 0 with rfl | h
  · simp
  · simp [h, ratDiv_eq_div, ratSub_eq_sub]

/-- Claim C8: on a fetch failure the price check emits exactly one WARNING
`price_tolerance` issue naming the failure and never an ERROR; on success the
deviation `|trade.price − market.price| / market.price` yields an ERROR issue
above the error threshold, a WARNING issue above the warning threshold, and no
issue otherwise. -/
theorem c8_price_check (env : OMSPriceEnv) (thr : PriceThresholds) (t : Trade) (d : Nat)
    (hd : parseIso t.trade_dt = some d) :
    (∀ e, env t.ticker d = .error e →
      checkPrice env thr t =
        [mkIssue "price_tolerance" .WARNING ("Market data unavailable: " ++ e) "price"] ∧
      ∀ i ∈ checkPrice env thr t, i.severity ≠ Severity.ERROR) ∧
    (∀ sp, env t.ticker d = .ok sp →
      (thr.error < |t.price - sp| / sp →
        checkPrice env thr t =
          [mkIssue "price_tolerance" .ERROR "Price deviates from market" "price"]) ∧
      (thr.warning < |t.price - sp| / sp → ¬ thr.error < |t.price - sp| / sp →
        checkPrice env thr t =
          [mkIssue "price_tolerance" .WARNING "Price deviates from market" "price"]) ∧
      (¬ thr.warning < |t.price - sp| / sp → ¬ thr.error < |t.price - sp| / sp →
        checkPrice env thr t = [])) := by
  constructor
  · intro e he
    have hc : checkPrice env thr t =
        [mkIssue "price_tolerance" .WARNING ("Market data unavailable: " ++ e) "price"] := by
      simp only [checkPrice, hd, he]
    refine ⟨hc, ?_⟩
    intro i hi
    rw [hc, List.mem_singleton] at hi
    subst hi
    simp [mkIssue]
  · intro sp hsp
    have hc : checkPrice env thr t =
        (if thr.error < |t.price - sp| / sp then
          [mkIssue "price_tolerance" .ERROR "Price deviates from market" "price"]
        else if thr.warning < |t.price - sp| / sp then
          [mkIssue "price_tolerance" .WARNING "Price deviates from market" "price"]
        else []) := by
      simp only [checkPrice, hd, hsp]
      rw [priceDeviationEq]
    refine ⟨fun h1 => ?_, fun h2 h1 => ?_, fun h2 h1 => ?_⟩
    · rw [hc, if_pos h1]
    · rw [hc, if_neg h1, if_pos h2]
    · rw [hc, if_neg h1, if_neg h2]

/-- Witness for C8 at concrete runs: a failing source yields the single
WARNING naming the failure; a 20% deviation against the default thresholds
yields the ERROR issue. -/
theorem c8_price_check_witness :
    checkPrice envDown defaultPriceThresholds tradeDev20 =
      [mkIssue "price_tolerance" .WARNING "Market data unavailable: API down" "price"] ∧
    checkPrice envP100 defaultPriceThresholds tradeDev20 =
      [mkIssue "price_tolerance" .ERROR "Price deviates from market" "price"] := by
  constructor
  · exact ((c8_price_check envDown defaultPriceThresholds tradeDev20 739042
      (by decide)).1 "API down" rfl).1
  · refine ((c8_price_check envP100 defaultPriceThresholds tradeDev20 739042
      (by decide)).2 100 rfl).1 ?_
    simp only [defaultPriceThresholds, tradeDev20]
    rw [Rat.mkRat_eq_div]
    norm_num

/-- Claim C5 (amended): when the trade dictionary parses, the required-fields
issues and the issues of all five typed-trade checks are all present in the
run result — no check's failure suppresses another check's issues. -/
theorem c5_checks_all_execute (cfg : OMSConfig) (env : OMSPriceEnv) (raw : RawTrade) (t : Trade)
    (hp : parseTrade raw = .ok t) :
    (∀ i ∈ checkRequired raw, i ∈ runIssues cfg env raw) ∧
    (∀ i ∈ checkIdentifier cfg.equities cfg.normTh t, i ∈ runIssues cfg env raw) ∧
    (∀ i ∈ checkCurrency cfg.ccyMap t, i ∈ runIssues cfg env raw) ∧
    (∀ i ∈ checkPrice env cfg.priceTh t, i ∈ runIssues cfg env raw) ∧
    (∀ i ∈ checkCounterparty cfg.counterparties t, i ∈ runIssues cfg env raw) ∧
    (∀ i ∈ checkSettlement cfg.settlementDays t, i ∈ runIssues cfg env raw) := by
  unfold runIssues
  rw [hp]
  refine ⟨?_, ?_, ?_, ?_, ?_, ?_⟩ <;> intro i hi <;> simp [List.mem_append, hi]

/-- Witness for C5 at a concrete run: `rawTradeOk` parses, and the WARNING of
the counterparty check appears in the run result. -/
theorem c5_checks_all_execute_witness :
    parseTrade rawTradeOk = .ok tradeOkParsed ∧
    (∀ i ∈ checkCounterparty omsCfg.counterparties tradeOkParsed,
      i ∈ runIssues omsCfg envDown rawTradeOk) :=
  ⟨by decide,
    (c5_checks_all_execute omsCfg envDown rawTradeOk tradeOkParsed (by decide)).2.2.2.2.1⟩

/-- Counterexample to C5 as stated: `rawTradeBadPrice` differs from
`rawTradeOk` only in its non-positive price.  On `rawTradeOk` the counterparty
check contributes its WARNING; on `rawTradeBadPrice` schema validation fails
and the run result has no counterparty issue at all — the later checks did not
execute. -/
theorem c5_counterexample :
    rawTradeBadPrice = { rawTradeOk with price := some (-5) } ∧
    (∃ i ∈ runIssues omsCfg envDown rawTradeOk, i.itype = "counterparty") ∧
    (∀ i ∈ runIssues omsCfg envDown rawTradeBadPrice, i.itype ≠ "counterparty") ∧
    (∃ i ∈ runIssues omsCfg envDown rawTradeBadPrice, i.itype = "schema_validation") := by
  decide

/-- Claim C7 (amended): for a parsed trade, the settlement check emits an
ERROR `settlement_date` issue exactly when settlement precedes the trade date,
falls on a weekend, or is earlier than T+N in calendar days; a WARNING exactly
when settlement is more than one calendar day later than T+N; and no issue
otherwise. -/
theorem c7_settlement_check (n : ℤ) (t : Trade) (td sd : Nat)
    (htd : parseIso t.trade_dt = some td) (hsd : parseIso t.settle_dt = some sd) :
    ((∃ i ∈ checkSettlement n t, i.severity = Severity.ERROR) ↔
      (sd < td ∨ 5 ≤ weekdayOf sd ∨ (sd : ℤ) - td < n)) ∧
    ((∃ i ∈ checkSettlement n t, i.severity = Severity.WARNING) ↔ n + 1 < (sd : ℤ) - td) ∧
    (checkSettlement n t = [] ↔
      (td ≤ sd ∧ weekdayOf sd < 5 ∧ n ≤ (sd : ℤ) - td ∧ (sd : ℤ) - td ≤ n + 1)) := by
  unfold checkSettlement
  rw [htd, hsd]
  by_cases h1 : sd < td <;> by_cases h2 : 5 ≤ weekdayOf sd <;>
    by_cases h3 : (sd : ℤ) - td < n <;> by_cases h4 : n + 1 < (sd : ℤ) - td <;>
    simp [h1, h2, h3, h4, mkIssue] <;> omega

/-- Witness for C7 at a concrete trade: Friday 2024-06-07 to Tuesday
2024-06-11 under N = 2 triggers the WARNING branch (four calendar days). -/
theorem c7_settlement_check_witness :
    parseIso tradeFriTue.trade_dt = some 739044 ∧
    ((∃ i ∈ checkSettlement 2 tradeFriTue, i.severity = Severity.WARNING) ↔
      2 + 1 < (739048 : ℤ) - 739044) :=
  ⟨by decide,
    (c7_settlement_check 2 tradeFriTue 739044 739048 (by decide) (by decide)).2.1⟩

/-- Counterexample to C7 as stated: the trade settles exactly two business
days after the trade date (the claim's expected window at the default N = 2
business days), does not precede it and is no weekend, so the claim requires
no settlement issue; the code measures the window in calendar days and emits
a WARNING. -/
theorem c7_counterexample :
    parseIso tradeFriTue.trade_dt = some 739044 ∧
    parseIso tradeFriTue.settle_dt = some 739048 ∧
    businessDaysBetween 739044 739048 = 2 ∧
    weekdayOf 739048 < 5 ∧
    739044 ≤ 739048 ∧
    checkSettlement 2 tradeFriTue =
      [mkIssue "settlement_date" .WARNING "Non-standard settlement interval" "settle_dt"] := by
  decide


/-- A failed fetch outcome always classifies as NO_MARKET_DATA. -/
theorem classifyFromFetch_fail (tol : Tolerances) (today : Nat) (m : Mark) (e : String) :
    (classifyFromFetch tol today m (FetchRes.fail e)).classification =
      Classification.NO_MARKET_DATA := by
  simp [classifyFromFetch, compareMarkToMarket]

/-- A successful fetch with a zero price classifies as NO_MARKET_DATA (the
percentage deviation stays `None`), and staleness does not override it. -/
theorem classifyFromFetch_zero (tol : Tolerances) (today : Nat) (m : Mark) (pd : String) :
    (classifyFromFetch tol today m (FetchRes.ok 0 pd)).classification =
      Classification.NO_MARKET_DATA := by
  simp [classifyFromFetch, compareMarkToMarket]

/-- The comparison classification for a nonzero market price, written with the
claim's deviation formula. -/
theorem compare_classification_nonzero (tol : Tolerances) (im : ℚ) (p : ℚ) (tk : String)
    (hp : p ≠ 0) :
    (compareMarkToMarket tol im (some p) tk).classification =
      (if effReviewThreshold tol tk < |im - p| / p then Classification.OUT_OF_TOLERANCE
       else if effOkThreshold tol tk < |im - p| / p then Classification.REVIEW_NEEDED
       else Classification.OK) := by
  simp [compareMarkToMarket, hp, ratDiv_eq_div, ratSub_eq_sub]

/-- For a nonzero market price the comparison never yields NO_MARKET_DATA. -/
theorem compare_classification_nonzero_ne (tol : Tolerances) (im : ℚ) (p : ℚ) (tk : String)
    (hp : p ≠ 0) :
    (compareMarkToMarket tol im (some p) tk).classification ≠
      Classification.NO_MARKET_DATA := by
  rw [compare_classification_nonzero tol im p tk hp]
  split
  · simp
  · split <;> simp

/-- A successful nonzero fetch classifies as STALE_MARK when the mark is
stale, and by the deviation thresholds otherwise. -/
theorem classifyFromFetch_ok (tol : Tolerances) (today : Nat) (m : Mark) (p : ℚ) (pd : String)
    (hp : p ≠ 0) :
    (classifyFromFetch tol today m (FetchRes.ok p pd)).classification =
      (if isStale tol today m.as_of_date then Classification.STALE_MARK
       else if effReviewThreshold tol m.ticker < |m.internal_mark - p| / p then
         Classification.OUT_OF_TOLERANCE
       else if effOkThreshold tol m.ticker < |m.internal_mark - p| / p then
         Classification.REVIEW_NEEDED
       else Classification.OK) := by
  have hne := compare_classification_nonzero_ne tol m.internal_mark p m.ticker hp
  have heq := compare_classification_nonzero tol m.internal_mark p m.ticker hp
  by_cases hst : isStale tol today m.as_of_date
  · simp [classifyFromFetch, hst, hne]
  · simp [classifyFromFetch, hst, heq]

/-- Claim C1 (amended): classification precedence of `_enrich_one`.  A
refmaster rejection yields NO_MARKET_DATA (error `unknown_ticker`) without a
fetch.  Otherwise a failed fetch yields NO_MARKET_DATA regardless of staleness
and deviation; a successful fetch returning price 0 also yields
NO_MARKET_DATA (staleness does not override it); a successful nonzero fetch
yields STALE_MARK when the mark is stale, and otherwise OUT_OF_TOLERANCE /
REVIEW_NEEDED / OK by the (possibly overridden) thresholds on
`|internal_mark − market_price| / market_price`. -/
theorem c1_classification_precedence (refm : RefCheck) (env : MarketDataEnv) (tol : Tolerances)
    (today : Nat) (ts : String) (c : PriceCache) (m : Mark) :
    (∀ rm, refm = some rm → normalize rm.1 rm.2 m.ticker 1 = [] →
      (enrichOne refm env tol today ts c m).1.classification = Classification.NO_MARKET_DATA ∧
      (enrichOne refm env tol today ts c m).1.error = some "unknown_ticker") ∧
    ((∀ rm, refm = some rm → normalize rm.1 rm.2 m.ticker 1 ≠ []) →
      (∀ e, (fetchMarketPrice env c m.ticker m.as_of_date).1 = FetchRes.fail e →
        (enrichOne refm env tol today ts c m).1.classification = Classification.NO_MARKET_DATA) ∧
      (∀ p pd, (fetchMarketPrice env c m.ticker m.as_of_date).1 = FetchRes.ok p pd →
        (p = 0 →
          (enrichOne refm env tol today ts c m).1.classification =
            Classification.NO_MARKET_DATA) ∧
        (p ≠ 0 → isStale tol today m.as_of_date = true →
          (enrichOne refm env tol today ts c m).1.classification = Classification.STALE_MARK) ∧
        (p ≠ 0 → isStale tol today m.as_of_date = false →
          (enrichOne refm env tol today ts c m).1.classification =
            (if effReviewThreshold tol m.ticker < |m.internal_mark - p| / p then
              Classification.OUT_OF_TOLERANCE
             else if effOkThreshold tol m.ticker < |m.internal_mark - p| / p then
              Classification.REVIEW_NEEDED
             else Classification.OK)))) := by
  constructor
  · intro rm hrm hempty
    subst hrm
    simp [enrichOne, hempty, unknownTickerMark]
  · intro hacc
    have hstep : (enrichOne refm env tol today ts c m).1.classification =
        (classifyFromFetch tol today m
          (fetchMarketPrice env c m.ticker m.as_of_date).1).classification := by
      cases refm with
      | none => rfl
      | some rm => simp [enrichOne, hacc rm rfl]
    constructor
    · intro e he
      rw [hstep, he, classifyFromFetch_fail]
    · intro p pd hr
      refine ⟨fun hp0 => ?_, fun hp hst => ?_, fun hp hst => ?_⟩
      · subst hp0
        rw [hstep, hr, classifyFromFetch_zero]
      · rw [hstep, hr, classifyFromFetch_ok tol today m p pd hp, hst]
        simp
      · rw [hstep, hr, classifyFromFetch_ok tol today m p pd hp, hst]
        simp

/-- Witness for C1 at a concrete run: a fresh 6% deviation under the default
thresholds classifies by the deviation rule, concretely OUT_OF_TOLERANCE. -/
theorem c1_classification_precedence_witness :
    (enrichOne none envMkt100 defaultTolerances todayFresh "TS" [] markB).1.classification =
      (if effReviewThreshold defaultTolerances markB.ticker <
          |markB.internal_mark - 100| / 100 then Classification.OUT_OF_TOLERANCE
       else if effOkThreshold defaultTolerances markB.ticker <
          |markB.internal_mark - 100| / 100 then Classification.REVIEW_NEEDED
       else Classification.OK) ∧
    (enrichOne none envMkt100 defaultTolerances todayFresh "TS" [] markB).1.classification =
      Classification.OUT_OF_TOLERANCE :=
  ⟨(((c1_classification_precedence none envMkt100 defaultTolerances todayFresh "TS" []
      markB).2 (by rintro rm ⟨⟩)).2 100 "2024-06-01" (by decide)).2.2 (by decide) (by decide),
    by decide⟩

/-- Counterexample to C1 as stated: the fetch succeeds (price 0) and the mark
is stale, so the claim requires STALE_MARK; the code classifies
NO_MARKET_DATA, treating a Python-falsy market price as missing data. -/
theorem c1_counterexample :
    (fetchMarketPrice envZeroPrice [] markA.ticker markA.as_of_date).1 =
      FetchRes.ok 0 "2024-06-01" ∧
    isStale defaultTolerances todayStale markA.as_of_date = true ∧
    (enrichOne none envZeroPrice defaultTolerances todayStale "TS" [] markA).1.classification =
      Classification.NO_MARKET_DATA ∧
    Classification.NO_MARKET_DATA ≠ Classification.STALE_MARK := by
  decide


/-- An enriched mark whose timestamp is already blank is fixed by `eraseTs`. -/
theorem eraseTs_eq_self (e : EnrichedMark) (h : e.fetch_timestamp = none) : eraseTs e = e := by
  cases e
  simp_all [eraseTs]

/-- Under a coherent cache, the value returned by `fetch_market_price` for an
uppercased ticker is the fresh outcome — the cache changes nothing observable. -/
theorem fetch_fst_of_coherent (env : MarketDataEnv) (c : PriceCache) (tk asOf : String)
    (hup : upperStr tk = tk) (hc : Coherent env c) :
    (fetchMarketPrice env c tk asOf).1 = freshFetch env tk asOf := by
  unfold fetchMarketPrice
  rw [hup]
  cases hget : alistGet c (tk, asOf) with
  | none =>
    simp only [hget]
    unfold freshFetch
    cases hpi : parseIso asOf with
    | none => simp [hpi]
    | some d =>
      simp only [hpi]
      cases henv : env tk d with
      | ok pr => simp [henv]
      | error e => simp [henv]
  | some r =>
    simp only [hget]
    obtain ⟨d, p, pd, hpi, henv, rfl⟩ := hc tk asOf r hget
    unfold freshFetch
    simp only [hpi]
    simp [henv]

/-- `fetch_market_price` caches only successful results, so it preserves cache
coherence. -/
theorem fetch_preserves_coherent (env : MarketDataEnv) (c : PriceCache) (tk asOf : String)
    (hup : upperStr tk = tk) (hc : Coherent env c) :
    Coherent env (fetchMarketPrice env c tk asOf).2 := by
  unfold fetchMarketPrice
  rw [hup]
  cases hget : alistGet c (tk, asOf) with
  | some r => simpa [hget] using hc
  | none =>
    cases hpi : parseIso asOf with
    | none => simpa [hget, hpi] using hc
    | some d =>
      cases henv : env tk d with
      | error e => simpa [hget, hpi, henv] using hc
      | ok pr =>
        simp only [hget, hpi, henv]
        intro tk2 asOf2 r2 h2
        simp only [alistPut, alistGet] at h2
        split at h2
        · rename_i hkey
          injection hkey with hk1 hk2
          subst hk1
          subst hk2
          injection h2 with h2e
          subst h2e
          exact ⟨d, pr.1, pr.2, hpi, henv, rfl⟩
        · exact hc tk2 asOf2 r2 h2

/-- Under a coherent cache, one enrichment step is — up to the wall-clock
stamp — the cache-free enrichment of the mark, and coherence is preserved. -/
theorem enrichOne_of_coherent (refm : RefCheck) (env : MarketDataEnv) (tol : Tolerances)
    (today : Nat) (ts : String) (c : PriceCache) (m : Mark)
    (hup : upperStr m.ticker = m.ticker) (hc : Coherent env c) :
    eraseTs (enrichOne refm env tol today ts c m).1 = freshEnrich refm env tol today m ∧
    Coherent env (enrichOne refm env tol today ts c m).2 := by
  have hfst := fetch_fst_of_coherent env c m.ticker m.as_of_date hup hc
  have hsnd := fetch_preserves_coherent env c m.ticker m.as_of_date hup hc
  cases refm with
  | none =>
    constructor
    · simp only [enrichOne, freshEnrich, eraseTs, hfst]
      exact eraseTs_eq_self _ rfl
    · simpa [enrichOne] using hsnd
  | some rm =>
    by_cases hempty : normalize rm.1 rm.2 m.ticker 1 = []
    · constructor
      · simp only [enrichOne, freshEnrich, hempty, if_pos, if_true, eraseTs]
        exact eraseTs_eq_self _ rfl
      · simpa [enrichOne, hempty] using hc
    · constructor
      · simp only [enrichOne, freshEnrich, hempty, if_neg, if_false, eraseTs, hfst]
        exact eraseTs_eq_self _ rfl
      · simpa [enrichOne, hempty] using hsnd

/-- Under a coherent cache, a batch enrichment run computes — up to the
per-run wall-clock stamp — the cache-free enrichment of every mark, and leaves
a coherent cache. -/
theorem enrichMarks_of_coherent (refm : RefCheck) (env : MarketDataEnv) (tol : Tolerances)
    (today : Nat) (ts : String) :
    ∀ (marks : List Mark) (c : PriceCache), (∀ m ∈ marks, upperStr m.ticker = m.ticker) →
      Coherent env c →
      (enrichMarks refm env tol today ts c marks).1.map eraseTs =
        marks.map (freshEnrich refm env tol today) ∧
      Coherent env (enrichMarks refm env tol today ts c marks).2 := by
  intro marks
  induction marks with
  | nil => exact fun c _ hc => ⟨rfl, hc⟩
  | cons m ms ih =>
    intro c hup hc
    obtain ⟨h1, h2⟩ := enrichOne_of_coherent refm env tol today ts c m (hup m (by simp)) hc
    obtain ⟨h3, h4⟩ :=
      ih (enrichOne refm env tol today ts c m).2 (fun x hx => hup x (by simp [hx])) h2
    constructor
    · simpa [enrichMarks, h1] using h3
    · simpa [enrichMarks] using h4

/-- Claim C4 (amended): re-running `enrich_marks` on the same validated marks
against the same market source and the same current date, starting from the
cache the first run left behind, returns results identical in every field
except `fetch_timestamp`, which carries each run's wall-clock stamp. -/
theorem c4_idempotence_mod_timestamp (refm : RefCheck) (env : MarketDataEnv) (tol : Tolerances)
    (today : Nat) (ts1 ts2 : String) (c0 : PriceCache) (marks : List Mark)
    (hup : ∀ m ∈ marks, upperStr m.ticker = m.ticker) (hc : Coherent env c0) :
    (enrichMarks refm env tol today ts2
        (enrichMarks refm env tol today ts1 c0 marks).2 marks).1.map eraseTs =
      (enrichMarks refm env tol today ts1 c0 marks).1.map eraseTs := by
  obtain ⟨h1, h2⟩ := enrichMarks_of_coherent refm env tol today ts1 marks c0 hup hc
  obtain ⟨h3, _⟩ := enrichMarks_of_coherent refm env tol today ts2 marks
    (enrichMarks refm env tol today ts1 c0 marks).2 hup h2
  rw [h1, h3]

/-- Witness for C4 at a concrete pair of runs over a one-mark batch. -/
theorem c4_idempotence_mod_timestamp_witness :
    (enrichMarks none envMkt100 defaultTolerances todayFresh "T2"
        (enrichMarks none envMkt100 defaultTolerances todayFresh "T1" [] [markA]).2
        [markA]).1.map eraseTs =
      (enrichMarks none envMkt100 defaultTolerances todayFresh "T1" [] [markA]).1.map eraseTs :=
  c4_idempotence_mod_timestamp none envMkt100 defaultTolerances todayFresh "T1" "T2" [] [markA]
    (by decide) (fun tk asOf r h => by simp [alistGet] at h)

/-- Counterexample to C4 as stated: the two runs' results are not identical —
the `fetch_timestamp` field records each run's wall-clock time. -/
theorem c4_counterexample :
    (enrichMarks none envMkt100 defaultTolerances todayFresh "T2"
        (enrichMarks none envMkt100 defaultTolerances todayFresh "T1" [] [markA]).2 [markA]).1 ≠
      (enrichMarks none envMkt100 defaultTolerances todayFresh "T1" [] [markA]).1 ∧
    (enrichMarks none envMkt100 defaultTolerances todayFresh "T2"
        (enrichMarks none envMkt100 defaultTolerances todayFresh "T1" [] [markA]).2
        [markA]).1.map (fun e => e.fetch_timestamp) = [some "T2"] ∧
    (enrichMarks none envMkt100 defaultTolerances todayFresh "T1" [] [markA]).1.map
        (fun e => e.fetch_timestamp) = [some "T1"] := by
  decide

/-- Claim C6 (amended): a batch whose records all pass `Mark` validation
yields one enriched result per record; a batch holding a malformed record
makes `enrich_marks` propagate the validation error, returning results for no
record at all. -/
theorem c6_batch_abort (refm : RefCheck) (env : MarketDataEnv) (tol : Tolerances)
    (today : Nat) (ts : String) :
    ∀ (rs : List RawMark) (c : PriceCache),
      ((∀ r ∈ rs, (parseRawMark r).isOk = true) →
        ∃ outs c2, enrichMarksRaw refm env tol today ts c rs = .ok (outs, c2) ∧
          outs.length = rs.length) ∧
      (∀ r ∈ rs, ∀ e, parseRawMark r = .error e →
        ∃ msg, enrichMarksRaw refm env tol today ts c rs = .error msg) := by
  intro rs
  induction rs with
  | nil =>
    intro c
    exact ⟨fun _ => ⟨[], c, rfl, rfl⟩, by simp⟩
  | cons r rs ih =>
    intro c
    constructor
    · intro hall
      have h1 := hall r (by simp)
      cases hp : parseRawMark r with
      | error e => rw [hp] at h1; cases h1
      | ok m =>
        obtain ⟨outs, c2, hrec, hlen⟩ :=
          (ih (enrichOne refm env tol today ts c m).2).1 (fun x hx => hall x (by simp [hx]))
        refine ⟨(enrichOne refm env tol today ts c m).1 :: outs, c2, ?_, by simp [hlen]⟩
        simp [enrichMarksRaw, hp, hrec]
    · intro x hx e hpe
      rcases List.mem_cons.mp hx with rfl | hx
      · exact ⟨e, by simp [enrichMarksRaw, hpe]⟩
      · cases hp : parseRawMark r with
        | error e2 => exact ⟨e2, by simp [enrichMarksRaw, hp]⟩
        | ok m =>
          obtain ⟨msg, hmsg⟩ :=
            (ih (enrichOne refm env tol today ts c m).2).2 x hx e hpe
          exact ⟨msg, by simp [enrichMarksRaw, hp, hmsg]⟩

/-- Witness for C6 at a concrete well-formed batch. -/
theorem c6_batch_abort_witness :
    (∀ r ∈ [rawMarkOk], (parseRawMark r).isOk = true) ∧
    ∃ outs c2,
      enrichMarksRaw none envMkt100 defaultTolerances todayFresh "TS" [] [rawMarkOk] =
        .ok (outs, c2) ∧ outs.length = [rawMarkOk].length :=
  ⟨by decide,
    (c6_batch_abort none envMkt100 defaultTolerances todayFresh "TS" [rawMarkOk] []).1
      (by decide)⟩

/-- Counterexample to C6 as stated: a batch of a well-formed record followed
by a record with an unparseable `as_of_date` returns no result for the
well-formed record — the validation error aborts the whole batch. -/
theorem c6_counterexample :
    (parseRawMark rawMarkOk).isOk = true ∧
    enrichMarksRaw none envMkt100 defaultTolerances todayFresh "TS" []
        [rawMarkOk, rawMarkBadDate] =
      .error "Invalid as_of_date format (YYYY-MM-DD expected): 2024-13-40" := by
  decide


/-- The full sorted candidate list is pairwise descending in confidence. -/
theorem sortedScored_sorted (eqs : List Equity) (th : NormThresholds) (inp : String) :
    (sortedScored eqs th inp).Pairwise confGe :=
  List.sorted_insertionSort confGe _

/-- Every candidate the scoring loop produces carries `ambiguous := false`. -/
theorem scoredOf_ambiguous_false (eqs : List Equity) (th : NormThresholds) (s : String) :
    ∀ r ∈ scoredOf eqs th s, r.ambiguous = false := by
  intro r hr
  rw [scoredOf, List.mem_filterMap] at hr
  obtain ⟨eq, -, heq⟩ := hr
  dsimp only at heq
  split at heq
  · cases heq; rfl
  · cases heq

/-- Membership in the sorted candidate list is membership in the scored list. -/
theorem mem_sortedScored (eqs : List Equity) (th : NormThresholds) (inp : String)
    (r : NormalizationResult) :
    r ∈ sortedScored eqs th inp ↔ r ∈ scoredOf eqs th (trimStr inp) :=
  (List.perm_insertionSort confGe _).mem_iff

/-- Every element of the sorted candidate list has the flag unset. -/
theorem sortedScored_ambiguous_false (eqs : List Equity) (th : NormThresholds) (inp : String) :
    ∀ r ∈ sortedScored eqs th inp, r.ambiguous = false := fun r hr =>
  scoredOf_ambiguous_false eqs th (trimStr inp) r ((mem_sortedScored eqs th inp r).mp hr)

/-- In the sorted candidate list no element exceeds the head's confidence. -/
theorem sortedScored_head_bound (eqs : List Equity) (th : NormThresholds) (inp : String)
    (a : NormalizationResult) (tail : List NormalizationResult)
    (h : sortedScored eqs th inp = a :: tail) :
    ∀ r ∈ sortedScored eqs th inp, r.confidence ≤ a.confidence := by
  have hs := sortedScored_sorted eqs th inp
  rw [h] at hs
  rw [h]
  intro r hr
  rcases List.mem_cons.mp hr with rfl | hr
  · exact le_refl _
  · exact (List.pairwise_cons.mp hs).1 r hr

/-- The marking function of the ambiguity pass preserves confidence. -/
theorem markFn_confidence (th : NormThresholds) (r : NormalizationResult) :
    (if th.ambiguousLow ≤ r.confidence then { r with ambiguous := true } else r).confidence =
      r.confidence := by
  split <;> rfl

/-- On the non-empty branch of `normalize`, the result is the truncated marked
list. -/
theorem normalize_eq_take (eqs : List Equity) (th : NormThresholds) (inp : String) (k : Nat)
    (a : NormalizationResult) (tail : List NormalizationResult) (hinp : ¬ inp = "")
    (hs : sortedScored eqs th inp = a :: tail) (hrej : ¬ a.confidence < th.reject) :
    normalize eqs th inp k = (markAmbiguous th (a :: tail)).take k := by
  simp only [normalize, if_neg hinp, hs, if_neg hrej]

/-- Claim C3: ambiguity flags of `normalize`.  (1) When the full scored list
(before `top_k` truncation) has a top confidence at most `ambiguous_high` and a
second confidence at least `ambiguous_low`, every returned result at or above
`ambiguous_low` is flagged ambiguous.  (2) A returned result with confidence
above `ambiguous_high` is never flagged.  (3) Truncation happens after the
flags are computed: enlarging `top_k` does not change the results already
returned. -/
theorem c3_ambiguity (eqs : List Equity) (th : NormThresholds) (inp : String) (k : Nat) :
    (∀ a b rest, sortedScored eqs th inp = a :: b :: rest →
      a.confidence ≤ th.ambiguousHigh → th.ambiguousLow ≤ b.confidence →
      ∀ r ∈ normalize eqs th inp k, th.ambiguousLow ≤ r.confidence → r.ambiguous = true) ∧
    (∀ r ∈ normalize eqs th inp k, th.ambiguousHigh < r.confidence → r.ambiguous = false) ∧
    (∀ i k2, i < k → k ≤ k2 → (normalize eqs th inp k2)[i]? = (normalize eqs th inp k)[i]?) := by
  refine ⟨?_, ?_, ?_⟩
  · intro a b rest hs h1 h2 r hr hlow
    by_cases hinp : inp = ""
    · rw [normalize, if_pos hinp] at hr
      cases hr
    by_cases hrej : a.confidence < th.reject
    · rw [normalize, if_neg hinp] at hr
      simp only [hs, if_pos hrej] at hr
      cases hr
    rw [normalize_eq_take eqs th inp k a (b :: rest) hinp hs hrej] at hr
    have hr2 := List.mem_of_mem_take hr
    rw [markAmbiguous, if_pos ⟨h1, h2⟩] at hr2
    rw [List.mem_map] at hr2
    obtain ⟨r0, -, heq⟩ := hr2
    by_cases h0 : th.ambiguousLow ≤ r0.confidence
    · rw [if_pos h0] at heq
      rw [← heq]
    · rw [if_neg h0] at heq
      subst heq
      exact absurd hlow h0
  · intro r hr hhigh
    by_cases hinp : inp = ""
    · rw [normalize, if_pos hinp] at hr
      cases hr
    cases hsort : sortedScored eqs th inp with
    | nil =>
      rw [normalize, if_neg hinp] at hr
      simp only [hsort] at hr
      cases hr
    | cons a tail =>
      by_cases hrej : a.confidence < th.reject
      · rw [normalize, if_neg hinp] at hr
        simp only [hsort, if_pos hrej] at hr
        cases hr
      rw [normalize_eq_take eqs th inp k a tail hinp hsort hrej] at hr
      have hr2 := List.mem_of_mem_take hr
      cases tail with
      | nil =>
        rw [show markAmbiguous th [a] = [a] from rfl] at hr2
        exact sortedScored_ambiguous_false eqs th inp r (hsort ▸ hr2)
      | cons b rest =>
        by_cases hstr : a.confidence ≤ th.ambiguousHigh ∧ th.ambiguousLow ≤ b.confidence
        · rw [markAmbiguous, if_pos hstr] at hr2
          rw [List.mem_map] at hr2
          obtain ⟨r0, hr0, heq⟩ := hr2
          have hb : r0.confidence ≤ a.confidence :=
            sortedScored_head_bound eqs th inp a (b :: rest) hsort r0 (hsort ▸ hr0)
          have hconf : r.confidence = r0.confidence := by
            rw [← heq]
            exact markFn_confidence th r0
          exact absurd (lt_of_lt_of_le (hconf ▸ hhigh) (le_trans hb hstr.1)) (lt_irrefl _)
        · rw [markAmbiguous, if_neg hstr] at hr2
          exact sortedScored_ambiguous_false eqs th inp r (hsort ▸ hr2)
  · intro i k2 hik hkk
    by_cases hinp : inp = ""
    · rw [normalize, if_pos hinp, normalize, if_pos hinp]
    cases hsort : sortedScored eqs th inp with
    | nil =>
      rw [normalize, if_neg hinp, normalize, if_neg hinp]
      simp only [hsort]
    | cons a tail =>
      by_cases hrej : a.confidence < th.reject
      · rw [normalize, if_neg hinp, normalize, if_neg hinp]
        simp only [hsort, if_pos hrej]
      rw [normalize_eq_take eqs th inp k a tail hinp hsort hrej,
        normalize_eq_take eqs th inp k2 a tail hinp hsort hrej]
      rw [List.getElem?_take_of_lt (lt_of_lt_of_le hik hkk), List.getElem?_take_of_lt hik]


/-- Witness for C3 at a concrete directory and input: two four-letter symbols
sharing a root both score 0.7 inside the ambiguity window, and both returned
results are flagged. -/
theorem c3_ambiguity_witness :
    sortedScored [eqABCD, eqABCE] defaultNormThresholds "XABCD YABCE" =
      [⟨eqABCD, mkRat 7 10, ["symbol_in_text"], false⟩,
        ⟨eqABCE, mkRat 7 10, ["symbol_in_text"], false⟩] ∧
    (∀ r ∈ normalize [eqABCD, eqABCE] defaultNormThresholds "XABCD YABCE" 5,
      defaultNormThresholds.ambiguousLow ≤ r.confidence → r.ambiguous = true) ∧
    (normalize [eqABCD, eqABCE] defaultNormThresholds "XABCD YABCE" 5).map
      (fun r => r.ambiguous) = [true, true] :=
  ⟨by decide,
    (c3_ambiguity [eqABCD, eqABCE] defaultNormThresholds "XABCD YABCE" 5).1
      ⟨eqABCD, mkRat 7 10, ["symbol_in_text"], false⟩
      ⟨eqABCE, mkRat 7 10, ["symbol_in_text"], false⟩ [] (by decide) (by decide) (by decide),
    by decide⟩

/-- A nonempty string has a nonempty character list. -/
theorem string_data_ne_nil (s : String) (h : s ≠ "") : s.data ≠ [] := by
  intro hd
  apply h
  cases s with
  | mk d => cases hd; rfl

/-- A nonempty needle is no substring of the empty string. -/
theorem strHasSub_empty (nd : String) (h : nd.data ≠ []) : strHasSub nd "" = false := by
  cases hd : nd.data with
  | nil => exact absurd hd h
  | cons c cs => simp [strHasSub, hasSub, hd, prefixEq]

/-- Against an equity with a nonempty symbol, the empty input scores zero with
no reasons: nothing is extracted from it and no substring rule fires. -/
theorem scoreEquity_empty_input (th : NormThresholds) (eq : Equity) (hsym : eq.symbol ≠ "") :
    scoreEquity th eq (extractIdentifiers "") "" = (0, []) := by
  have hx : extractIdentifiers "" = ⟨none, none, none, none, none, none⟩ := by decide
  have hns : strHasSub (upperStr eq.symbol) "" = false := by
    apply strHasSub_empty
    have hd := string_data_ne_nil eq.symbol hsym
    simpa [upperStr] using hd
  rw [hx]
  simp [scoreEquity, show upperStr "" = "" from rfl, hns]

/-- The scoring loop produces no candidates on the empty input. -/
theorem scoredOf_empty_input (eqs : List Equity) (th : NormThresholds)
    (hsym : ∀ eq ∈ eqs, eq.symbol ≠ "") :
    scoredOf eqs th "" = [] := by
  rw [scoredOf, List.filterMap_eq_nil_iff]
  intro eq heq
  dsimp only
  rw [scoreEquity_empty_input th eq (hsym eq heq)]
  simp

/-- Claim C9: with any directory of nonempty symbols, `normalize` is total and
returns the empty list rather than failing: on empty or whitespace-only input
(whose strip is empty), when no directory entry scores positively, and when
the top score falls below the reject threshold. -/
theorem c9_never_raises (eqs : List Equity) (inp : String) (k : Nat)
    (hsym : ∀ eq ∈ eqs, eq.symbol ≠ "") :
    (trimStr inp = "" → normalize eqs defaultNormThresholds inp k = []) ∧
    (sortedScored eqs defaultNormThresholds inp = [] →
      normalize eqs defaultNormThresholds inp k = []) ∧
    (∀ top rest, sortedScored eqs defaultNormThresholds inp = top :: rest →
      top.confidence < defaultNormThresholds.reject →
      normalize eqs defaultNormThresholds inp k = []) := by
  refine ⟨?_, ?_, ?_⟩
  · intro htrim
    by_cases hinp : inp = ""
    · rw [normalize, if_pos hinp]
    · have hsorted : sortedScored eqs defaultNormThresholds inp = [] := by
        rw [sortedScored, htrim, scoredOf_empty_input eqs defaultNormThresholds hsym]
        rfl
      rw [normalize, if_neg hinp]
      simp only [hsorted]
  · intro hsorted
    by_cases hinp : inp = ""
    · rw [normalize, if_pos hinp]
    · rw [normalize, if_neg hinp]
      simp only [hsorted]
  · intro top rest hsorted hrej
    by_cases hinp : inp = ""
    · rw [normalize, if_pos hinp]
    · rw [normalize, if_neg hinp]
      simp only [hsorted, if_pos hrej]

/-- Witness for C9 at a concrete directory: whitespace-only input yields the
empty list. -/
theorem c9_never_raises_witness :
    (∀ eq ∈ [eqAAPL], eq.symbol ≠ "") ∧
    normalize [eqAAPL] defaultNormThresholds "   " 5 = [] :=
  ⟨by decide, (c9_never_raises [eqAAPL] "   " 5 (by decide)).1 (by decide)⟩

/-- The ambiguity pass preserves the descending-confidence ordering. -/
theorem markAmbiguous_pairwise (th : NormThresholds) (l : List NormalizationResult)
    (h : l.Pairwise confGe) : (markAmbiguous th l).Pairwise confGe := by
  cases l with
  | nil => exact h
  | cons a t =>
    cases t with
    | nil => exact h
    | cons b rest =>
      simp only [markAmbiguous]
      split
      · rw [List.pairwise_map]
        refine h.imp ?_
        intro x y hxy
        simpa [confGe, markFn_confidence] using hxy
      · exact h

/-- Claim C10: a result list returned by `normalize` is pairwise descending in
confidence and its head's confidence is at or above the reject threshold; but
only the top candidate is compared against the threshold, so the returned list
can contain results below it — concretely, an exchange-keyword-only 0.3 match
is returned alongside a 0.95 top match under the default 0.4 reject
threshold. -/
theorem c10_output_invariants (eqs : List Equity) (th : NormThresholds) (inp : String) (k : Nat) :
    (normalize eqs th inp k).Pairwise confGe ∧
    (∀ r rest2, normalize eqs th inp k = r :: rest2 → th.reject ≤ r.confidence) ∧
    (∃ r ∈ normalize [eqAAPL, eqZZZQ] defaultNormThresholds "AAPL NASDAQ" 5,
      r.confidence < defaultNormThresholds.reject) := by
  refine ⟨?_, ?_, by decide⟩
  · by_cases hinp : inp = ""
    · rw [normalize, if_pos hinp]
      exact List.Pairwise.nil
    cases hsort : sortedScored eqs th inp with
    | nil =>
      rw [normalize, if_neg hinp]
      simp only [hsort]
      exact List.Pairwise.nil
    | cons a tail =>
      by_cases hrej : a.confidence < th.reject
      · rw [normalize, if_neg hinp]
        simp only [hsort, if_pos hrej]
        exact List.Pairwise.nil
      · rw [normalize_eq_take eqs th inp k a tail hinp hsort hrej]
        refine List.Pairwise.sublist (List.take_sublist k _) ?_
        have hsorted := sortedScored_sorted eqs th inp
        rw [hsort] at hsorted
        exact markAmbiguous_pairwise th (a :: tail) hsorted
  · intro r rest2 hr
    by_cases hinp : inp = ""
    · rw [normalize, if_pos hinp] at hr
      cases hr
    cases hsort : sortedScored eqs th inp with
    | nil =>
      rw [normalize, if_neg hinp] at hr
      simp only [hsort] at hr
      cases hr
    | cons a tail =>
      by_cases hrej : a.confidence < th.reject
      · rw [normalize, if_neg hinp] at hr
        simp only [hsort, if_pos hrej] at hr
        cases hr
      · rw [normalize_eq_take eqs th inp k a tail hinp hsort hrej] at hr
        have hco : r.confidence = a.confidence := by
          cases tail with
          | nil =>
            cases k with
            | zero => simp at hr
            | succ k2 =>
              rw [show markAmbiguous th [a] = [a] from rfl, List.take_succ_cons] at hr
              cases hr
              rfl
          | cons b rest =>
            by_cases hstr : a.confidence ≤ th.ambiguousHigh ∧ th.ambiguousLow ≤ b.confidence
            · rw [markAmbiguous, if_pos hstr, List.map] at hr
              cases k with
              | zero => simp at hr
              | succ k2 =>
                rw [List.take_succ_cons] at hr
                cases hr
                exact markFn_confidence th a
            · rw [markAmbiguous, if_neg hstr] at hr
              cases k with
              | zero => simp at hr
              | succ k2 =>
                rw [List.take_succ_cons] at hr
                cases hr
                rfl
        rw [hco]
        exact le_of_not_lt hrej

/-- Witness for C10 at a concrete run: the theorem applied to the returned
head gives its confidence at or above the reject threshold. -/
theorem c10_output_invariants_witness :
    defaultNormThresholds.reject ≤
      (⟨eqAAPL, mkRat 95 100,
        ["symbol_exact", "exchange_match", "symbol_in_text", "exchange_only"],
        false⟩ : NormalizationResult).confidence :=
  (c10_output_invariants [eqAAPL, eqZZZQ] defaultNormThresholds "AAPL NASDAQ" 5).2.1
    ⟨eqAAPL, mkRat 95 100,
      ["symbol_exact", "exchange_match", "symbol_in_text", "exchange_only"], false⟩
    [⟨eqZZZQ, mkRat 3 10, ["exchange_only"], false⟩] (by decide)

end Transient
